import Mathlib

/-!
Verification development for the middleware job-execution and RPC-dispatch
core (files `src/middlewared/middlewared/job.py` and
`src/middlewared/middlewared/main.py`).

The Python code is shallowly embedded: classes become structures, object
identity for shared mutable objects (jobs, lock objects) is modelled by
allocation ids into function-typed stores, dict lookups become `Option`,
and a Python statement that raises (a failed `assert`, `TypeError`,
`AttributeError`, `KeyError`) is modelled by an `Option`/`Except` error
result or an explicit crash flag.  Wall-clock values (`datetime.now()`)
are passed in as explicit `Nat` clock arguments.
-/

set_option maxRecDepth 4000
set_option linter.unusedVariables false

namespace Middlewared

/-- Embedding of `class State(enum.Enum)` from job.py. -/
inductive State where
  | WAITING
  | RUNNING
  | SUCCESS
  | FAILED
deriving DecidableEq, Repr

/-- Embedding of `State.__members__[s]`: the member of the enum named `s`,
or a `KeyError` (`none`) when no member has that name. -/
def State.ofName (s : String) : Option State :=
  if s = "WAITING" then some .WAITING
  else if s = "RUNNING" then some .RUNNING
  else if s = "SUCCESS" then some .SUCCESS
  else if s = "FAILED" then some .FAILED
  else none

/-- Wire values exchanged with clients (message params, method results).
The constructor `appRef` stands for the Application (session) object that
`Middleware.call_method` prepends to the argument list of a method carrying
the `_pass_app` mark. -/
inductive Value where
  | null
  | num (n : Nat)
  | str (s : String)
  | appRef
deriving DecidableEq, Repr

/-- Embedding of `class Job` from job.py.  The fields mirror the attributes
set in `Job.__init__`: `id` starts as `None` until `set_id` runs,
`lockName` is the value computed by `get_lock_name()` from
`options.get('lock')` (evaluating it on `args` when it is callable; the
computation is deterministic per job, so the embedding stores the computed
name), `lock` is the `job.lock` back-reference to a `JobSharedLock`
object, identified by its allocation id in the lock store, `state` starts
as `State.WAITING`, and `time_finished` starts as `None`.  The `method`,
`args`, `options` and `progress` attributes play no role in the claims
over job.py and are not carried. -/
structure Job where
  id : Option Nat
  lockName : Option String
  lock : Option Nat
  result : Option Value
  state : State
  time_started : Nat
  time_finished : Option Nat
deriving DecidableEq, Repr

/-- Embedding of a job as `Job.__init__` leaves it, at clock `now`. -/
def Job.new (lockName : Option String) (now : Nat) : Job :=
  { id := none, lockName := lockName, lock := none, result := none,
    state := .WAITING, time_started := now, time_finished := none }

/-- Embedding of `Job.set_state` from job.py:

```
def set_state(self, state):
    if self.state == State.WAITING:
        assert state not in ('WAITING', 'SUCCESS')
    if self.state == State.RUNNING:
        assert state not in ('WAITING', 'RUNNING')
    assert self.state not in (State.SUCCESS, State.FAILED)
    self.state = State.__members__[state]
    self.time_finished = datetime.now()
```

A failed `assert` (and a `KeyError` from `State.__members__`) is `none`;
all the checks precede the mutation, so on `none` the Python object is
unchanged.  On success the new state is `State.__members__[state]` and
`time_finished` is stamped with the current clock `now`. -/
def Job.set_state (j : Job) (state : String) (now : Nat) : Option Job :=
  if j.state = State.WAITING ∧ (state = "WAITING" ∨ state = "SUCCESS") then none
  else if j.state = State.RUNNING ∧ (state = "WAITING" ∨ state = "RUNNING") then none
  else if j.state = State.SUCCESS ∨ j.state = State.FAILED then none
  else
    match State.ofName state with
    | none => none
    | some st => some { j with state := st, time_finished := some now }

/-- Embedding of `Job.set_result`. -/
def Job.set_result (j : Job) (result : Option Value) : Job :=
  { j with result := result }

/-!
Embedding of `class JobsDeque` from job.py:

```
def __init__(self, maxlen=1000):
    self.maxlen = 1000
    self.count = 0
    self.__dict = OrderedDict()

def add(self, job):
    self.count += 1
    job.set_id(self.count)
    if len(self.__dict) > self.maxlen:
        self.__dict.popitem(last=False)
    self.__dict[job.id] = job
```

The `OrderedDict` is kept here as an association list in reverse insertion
order (newest entry first): inserting the fresh key `job.id` is a cons and
`popitem(last=False)` (dropping the oldest entry) is `dropLast`.  Keys are
the values of the strictly increasing counter, hence always fresh. -/

structure JobsDeque where
  maxlen : Nat
  count : Nat
  dict : List (Nat × Job)
deriving DecidableEq, Repr

/-- Embedding of `JobsDeque.__init__`: note the source ignores the `maxlen`
parameter and hard-codes `self.maxlen = 1000`. -/
def JobsDeque.new (maxlen : Nat) : JobsDeque :=
  { maxlen := 1000, count := 0, dict := [] }

/-- Embedding of `JobsDeque.add`: the eviction check `len > maxlen` runs
before the insertion. -/
def JobsDeque.add (d : JobsDeque) (job : Job) : JobsDeque :=
  let count := d.count + 1
  let job := { job with id := some count }
  let dict := if d.dict.length > d.maxlen then d.dict.dropLast else d.dict
  { d with count := count, dict := (count, job) :: dict }

/-- Iterated `JobsDeque.add` of `n` freshly constructed jobs (each
`Job()` call in the scenario produces a job in the initial state; `add`
overwrites the id, so a single prototype value is adequate). -/
def JobsDeque.addMany (d : JobsDeque) (proto : Job) : Nat → JobsDeque
  | 0 => d
  | n + 1 => JobsDeque.addMany (d.add proto) proto n

/-- C1 counterexample: a job still in `WAITING` accepts
`set_state('FAILED')` — the asserts pass (`'FAILED'` is not in the blocked
tuple `('WAITING', 'SUCCESS')`) and the state changes to `FAILED`,
although `Waiting → Failed` skips `Running` and is not on the path the
claim allows. -/
theorem C1_counterexample :
    ((Job.new none 0).set_state "FAILED" 5).isSome = true
    ∧ ((Job.new none 0).set_state "FAILED" 5).map Job.state = some State.FAILED := by
  decide

/-- C1 (amended): `set_state` succeeds exactly for the requested
transitions `Waiting → Running`, `Waiting → Failed`, `Running → Success`
and `Running → Failed`; every other request — self-transitions,
`Waiting → Success`, backward transitions, any transition out of `Success`
or `Failed`, and unknown state names — fails with an invariant violation
leaving the job unchanged, and on success the state becomes the named
state. -/
theorem C1_set_state_characterization (j : Job) (tgt : String) (now : Nat) :
    ((j.set_state tgt now).isSome ↔
      ((j.state = State.WAITING ∧ (tgt = "RUNNING" ∨ tgt = "FAILED")) ∨
       (j.state = State.RUNNING ∧ (tgt = "SUCCESS" ∨ tgt = "FAILED"))))
    ∧ (∀ j' : Job, j.set_state tgt now = some j' →
        State.ofName tgt = some j'.state ∧ j'.time_finished = some now) := by
  cases hj : j.state <;>
    by_cases h1 : tgt = "WAITING" <;>
    by_cases h2 : tgt = "RUNNING" <;>
    by_cases h3 : tgt = "SUCCESS" <;>
    by_cases h4 : tgt = "FAILED" <;>
    simp_all [Job.set_state, State.ofName]

/-- C1 witness for the characterization theorem: on a fresh waiting job
the request `RUNNING` succeeds. -/
theorem C1_set_state_characterization_witness :
    ((Job.new none 0).set_state "RUNNING" 3).isSome = true := by
  have h := (C1_set_state_characterization (Job.new none 0) "RUNNING" 3).1
  exact h.mpr (Or.inl (by decide))

/-- C9: the code stamps `time_finished` on every successful `set_state`
call — in particular the `Waiting → Running` transition already sets it
(and the later terminal transition overwrites it), contradicting the
claim that it is written exactly once, at the terminal transition. -/
theorem C9_time_finished_bug :
    ((Job.new none 0).set_state "RUNNING" 7).map (fun j => (j.state, j.time_finished))
      = some (State.RUNNING, some 7) := by
  decide

/-- Deque obtained by adding 1001 jobs to a fresh `JobsDeque` of capacity
1000 (end-to-end scenario 5 of the spec). -/
def deque1001 : JobsDeque := (JobsDeque.new 1000).addMany (Job.new none 0) 1001

/-- Helper: a key that appears in an association list is found by
`List.lookup`. -/
lemma lookup_isSome_of_mem {k : Nat} {v : Job} :
    ∀ {l : List (Nat × Job)}, (k, v) ∈ l → (l.lookup k).isSome = true := by
  intro l
  induction l with
  | nil => intro hmem; cases hmem
  | cons hd tl ih =>
    intro hmem
    by_cases hk : k = hd.1
    · subst hk
      simp [List.lookup]
    · have hbeq : (k == hd.1) = false := beq_eq_false_iff_ne.mpr hk
      have ht : (k, v) ∈ tl := by
        rcases List.mem_cons.mp hmem with heq | ht
        · exact absurd (congrArg Prod.fst heq) hk
        · exact ht
      simpa [List.lookup, hbeq] using ih ht

/-- Helper: as long as the dictionary stays at or below capacity before
each insertion, `addMany` never evicts: the length grows by exactly the
number of additions, every existing entry is preserved, and the first
added entry, keyed by the successor of the starting counter, is present
in the result. -/
lemma addMany_no_evict (proto : Job) :
    ∀ (n : Nat) (d : JobsDeque), d.dict.length + n ≤ d.maxlen + 1 →
      (d.addMany proto n).dict.length = d.dict.length + n ∧
      (∀ k v, (k, v) ∈ d.dict → (k, v) ∈ (d.addMany proto n).dict) ∧
      (1 ≤ n → (d.count + 1, { proto with id := some (d.count + 1) }) ∈ (d.addMany proto n).dict) := by
  intro n
  induction n with
  | zero =>
    intro d _
    refine ⟨by simp [JobsDeque.addMany], ?_, ?_⟩
    · intro k v hkv
      exact hkv
    · intro hcontra
      exact absurd hcontra (by omega)
  | succ m ih =>
    intro d hle
    have hnoev : ¬ d.dict.length > d.maxlen := by omega
    have hadd : (d.add proto).dict = (d.count + 1, { proto with id := some (d.count + 1) }) :: d.dict := by
      simp [JobsDeque.add, hnoev]
    have hmax : (d.add proto).maxlen = d.maxlen := by simp [JobsDeque.add]
    have hlen : (d.add proto).dict.length = d.dict.length + 1 := by
      rw [hadd]; simp
    have hih := ih (d.add proto) (by rw [hlen, hmax]; omega)
    have hunfold : d.addMany proto (m + 1) = (d.add proto).addMany proto m := rfl
    refine ⟨?_, ?_, ?_⟩
    · rw [hunfold, hih.1, hlen]; omega
    · intro k v hmem
      rw [hunfold]
      exact hih.2.1 k v (by rw [hadd]; exact List.mem_cons_of_mem _ hmem)
    · intro _
      rw [hunfold]
      exact hih.2.1 _ _ (by rw [hadd]; exact List.mem_cons_self _ _)

/-- C3: because `JobsDeque.add` checks `len > maxlen` before inserting,
adding 1001 jobs to the capacity-1000 store leaves 1001 entries and job
id 1 is still retrievable — the claim says the size never exceeds 1000
and that only ids 2..1001 remain. -/
theorem C3_capacity_bug :
    deque1001.dict.length = 1001 ∧ (deque1001.dict.lookup 1).isSome = true := by
  have hmain := addMany_no_evict (Job.new none 0) 1001 (JobsDeque.new 1000)
    (by simp [JobsDeque.new])
  have hlen : deque1001.dict.length = 1001 := by
    have := hmain.1
    simpa [JobsDeque.new, deque1001] using this
  refine ⟨hlen, ?_⟩
  have hmem := hmain.2.2 (by omega)
  simp only [JobsDeque.new] at hmem
  exact lookup_isSome_of_mem hmem

/-!
Embedding of the session protocol and RPC dispatch path of main.py
(`class Application` and `class Middleware`).  A decoded inbound message
is a dict; the embedding carries the fields the code reads:
`message['msg']`, `message.get('version')`, `message['id']`,
`message['method']` and `message.get('params') or []`.  The per-plugin
`on_message`/`on_close` callbacks are external collaborators whose
failures are logged and swallowed; they produce no replies and are not
modelled. -/

/-- Decoded inbound message. -/
structure Message where
  msg : String
  id : Nat
  version : Option String
  method : String
  params : List Value
deriving DecidableEq, Repr

/-- Per-connection state of `class Application`: `authenticated` is fixed
at connection open by `_check_permission` (out of scope), `handshake`
starts `False`, `sessionid` is the token generated at open. -/
structure Session where
  authenticated : Bool
  handshake : Bool
  sessionid : String
deriving DecidableEq, Repr

/-- Replies sent with `Application._send` and `Application.send_error`:
`connected`/`failed` for the handshake, `result` for
`{'msg': 'result', 'id': ..., 'result': ...}` and `error` for
`{'msg': 'result', 'id': ..., 'error': {'error': ..., 'stacktrace': ...}}`. -/
inductive Reply where
  | connected (session : String)
  | failed (version : String)
  | result (id : Nat) (result : Option Value)
  | error (id : Nat) (errmsg : String)
deriving DecidableEq, Repr

/-- Python exceptions surfacing in the dispatch path. -/
inductive PyError where
  | typeError
  | keyError
  | attributeError
  | valueError
  | exc (msg : String)
deriving DecidableEq, Repr

/-- Embedding of `str(e)` as used by `Application.call_method` when
building an error reply. -/
def PyError.message : PyError → String
  | .typeError => "TypeError"
  | .keyError => "KeyError"
  | .attributeError => "AttributeError"
  | .valueError => "ValueError"
  | .exc msg => msg

/-- A registered service method together with the marks the dispatcher
reads: `hasattr(methodobj, '_no_auth_required')`,
`hasattr(methodobj, '_pass_app')`, `hasattr(methodobj, '_job')`, and the
underlying callable body (an exception from the body is an `Except.error`). -/
structure MethodObj where
  no_auth_required : Bool
  pass_app : Bool
  is_job : Bool
  body : List Value → Except String Value

/-- The middleware method registry: services by namespace, each mapping
attribute names to method objects (`Middleware.get_service` plus
`getattr`). -/
structure Middleware where
  services : List (String × List (String × MethodObj))

/-- Helper for `rsplitDot`: split a character list at its last `'.'`,
returning the characters before and after it; `none` when no dot occurs. -/
def rsplitDotChars : List Char → Option (List Char × List Char)
  | [] => none
  | c :: rest =>
    match rsplitDotChars rest with
    | some (before, after) => some (c :: before, after)
    | none => if c = '.' then some ([], rest) else none

/-- Embedding of `method.rsplit('.', 1)`: split at the last dot; with no
dot the two-element unpacking raises `ValueError` (`none`). -/
def rsplitDot (s : String) : Option (String × String) :=
  (rsplitDotChars s.data).map (fun p => (⟨p.1⟩, ⟨p.2⟩))

/-- Embedding of `Middleware.get_service`, a dict lookup (a `KeyError` is
`none`). -/
def Middleware.get_service (mw : Middleware) (name : String) : Option (List (String × MethodObj)) :=
  mw.services.lookup name

/-- Outcome of `Middleware.call_method`: the error replies it sends
directly through `app.send_error`, its return value (or the exception it
raises), and the names of the method bodies it invoked (used to state
that a body was never run). -/
structure CallOut where
  sent : List Reply
  ret : Except PyError (Option Value)
  invoked : List String
deriving Repr

/-- Embedding of `Middleware.call_method` from main.py:

```
def call_method(self, app, message):
    method = message['method']
    params = message.get('params') or []
    service, method = method.rsplit('.', 1)
    methodobj = getattr(self.get_service(service), method)
    if not app.authenticated and not hasattr(methodobj, '_no_auth_required'):
        app.send_error(message, 'Not authenticated')
        return
    args = []
    if hasattr(methodobj, '_pass_app'):
        args.append(app)
    if hasattr(methodobj, '_job'):
        job = Job()
        ...
```

In the `_job` branch the call `Job()` passes none of the three required
constructor parameters of `Job.__init__(self, method, args, options)`, so
it raises `TypeError` before a job is created or anything is submitted;
the embedding returns that exception there.  In the synchronous branch
the body runs inline with the session object prepended when `_pass_app`
is set, and its value (or exception) is returned. -/
def Middleware.call_method (mw : Middleware) (authenticated : Bool) (message : Message) : CallOut :=
  match rsplitDot message.method with
  | none => { sent := [], ret := .error .valueError, invoked := [] }
  | some (service, meth) =>
    match mw.get_service service with
    | none => { sent := [], ret := .error .keyError, invoked := [] }
    | some svc =>
      match svc.lookup meth with
      | none => { sent := [], ret := .error .attributeError, invoked := [] }
      | some methodobj =>
        if authenticated = false ∧ methodobj.no_auth_required = false then
          { sent := [Reply.error message.id "Not authenticated"], ret := .ok none, invoked := [] }
        else if methodobj.is_job then
          { sent := [], ret := .error .typeError, invoked := [] }
        else
          let args := (if methodobj.pass_app then [Value.appRef] else []) ++ message.params
          match methodobj.body args with
          | .ok v => { sent := [], ret := .ok (some v), invoked := [message.method] }
          | .error e => { sent := [], ret := .error (.exc e), invoked := [message.method] }

/-- Embedding of `Application.call_method`: sends a `result` reply with
the middleware return value, or `send_error` with `str(e)` when the
middleware call raises.  Returns the replies sent over the socket (in
order) and the invoked method bodies. -/
def Application.call_method (mw : Middleware) (s : Session) (message : Message) :
    List Reply × List String :=
  let out := mw.call_method s.authenticated message
  match out.ret with
  | .ok v => (out.sent ++ [Reply.result message.id v], out.invoked)
  | .error e => (out.sent ++ [Reply.error message.id e.message], out.invoked)

/-- Embedding of `Application.on_message` from main.py (the plugin
callbacks are not modelled): handshake handling for `connect` messages,
rejection of anything received before the handshake, dispatch of
`method` messages, and the trailing not-authenticated error reply.
Returns the replies sent, the resulting session state, and the invoked
method bodies. -/
def Application.on_message (mw : Middleware) (s : Session) (message : Message) :
    List Reply × Session × List String :=
  if message.msg = "connect" then
    if message.version ≠ some "1" then
      ([Reply.failed "1"], s, [])
    else
      ([Reply.connected s.sessionid], { s with handshake := true }, [])
  else if s.handshake = false then
    ([Reply.failed "1"], s, [])
  else
    let r := if message.msg = "method" then Application.call_method mw s message else ([], [])
    if s.authenticated = false then
      (r.1 ++ [Reply.error message.id "Not authenticated"], s, r.2)
    else
      (r.1, s, r.2)

/-- Helper: `Application.call_method` always sends at least one reply
(the final `result` reply or the `send_error` reply). -/
lemma Application.call_method_length (mw : Middleware) (s : Session) (m : Message) :
    1 ≤ (Application.call_method mw s m).1.length := by
  unfold Application.call_method
  cases h : (mw.call_method s.authenticated m).ret <;> simp [h]

/-- Example middleware registry: a single unmarked method `system.info`. -/
def mwInfo : Middleware :=
  ⟨[("system", [("info", { no_auth_required := false, pass_app := false, is_job := false,
                           body := fun _ => Except.ok (Value.str "info") })])]⟩

/-- Example middleware registry: a single job-marked method `disk.wipe`. -/
def mwJob : Middleware :=
  ⟨[("disk", [("wipe", { no_auth_required := false, pass_app := false, is_job := true,
                         body := fun _ => Except.ok Value.null })])]⟩

/-- C7: for a session that has not completed the handshake, a `connect`
with version `"1"` is answered with `connected` carrying the session id
and sets the handshake flag; a `connect` with any other or missing
version is answered with `failed` and leaves the session unchanged; and
any other message is answered with `failed`, leaves the session
unchanged and dispatches nothing (no method body is invoked and no
result reply is produced). -/
theorem C7_handshake_protocol (mw : Middleware) (s : Session) (m : Message)
    (h : s.handshake = false) :
    (m.msg = "connect" → m.version = some "1" →
      Application.on_message mw s m
        = ([Reply.connected s.sessionid], { s with handshake := true }, []))
    ∧ (m.msg = "connect" → m.version ≠ some "1" →
      Application.on_message mw s m = ([Reply.failed "1"], s, []))
    ∧ (m.msg ≠ "connect" →
      Application.on_message mw s m = ([Reply.failed "1"], s, [])) := by
  refine ⟨fun h1 h2 => ?_, fun h1 h2 => ?_, fun h1 => ?_⟩
  · simp [Application.on_message, h1, h2]
  · simp [Application.on_message, h1, h2]
  · simp [Application.on_message, h1, h]

/-- C7 witness: on a fresh session, a well-versioned connect yields the
connected reply and the connected state. -/
theorem C7_handshake_protocol_witness :
    Application.on_message mwInfo ⟨false, false, "sid"⟩ ⟨"connect", 1, some "1", "", []⟩
      = ([Reply.connected "sid"], ⟨false, true, "sid"⟩, []) :=
  (C7_handshake_protocol mwInfo ⟨false, false, "sid"⟩ ⟨"connect", 1, some "1", "", []⟩ rfl).1 rfl rfl

/-- C8: when the resolved method is not marked `_no_auth_required` and the
session is unauthenticated, the dispatcher sends the
`'Not authenticated'` error reply, returns `None`, and never invokes the
method body; through `Application.call_method` the caller receives that
error reply (followed by the result envelope for the `None` return). -/
theorem C8_auth_gate (mw : Middleware) (s : Session) (m : Message)
    (svcName methName : String) (svc : List (String × MethodObj)) (methodobj : MethodObj)
    (hsplit : rsplitDot m.method = some (svcName, methName))
    (hsvc : mw.get_service svcName = some svc)
    (hmeth : svc.lookup methName = some methodobj)
    (hflag : methodobj.no_auth_required = false)
    (hauth : s.authenticated = false) :
    Middleware.call_method mw s.authenticated m
      = { sent := [Reply.error m.id "Not authenticated"], ret := .ok none, invoked := [] }
    ∧ Application.call_method mw s m
      = ([Reply.error m.id "Not authenticated", Reply.result m.id none], []) := by
  have hmid : Middleware.call_method mw s.authenticated m
      = { sent := [Reply.error m.id "Not authenticated"], ret := .ok none, invoked := [] } := by
    simp [Middleware.call_method, hsplit, hsvc, hmeth, hflag, hauth]
  refine ⟨hmid, ?_⟩
  simp [Application.call_method, hmid]

/-- C8 witness: an unauthenticated call to the unmarked `system.info`
yields only the authentication error (and the trailing `None` result
envelope) and invokes nothing. -/
theorem C8_auth_gate_witness :
    Application.call_method mwInfo ⟨false, true, "sid"⟩ ⟨"method", 42, none, "system.info", []⟩
      = ([Reply.error 42 "Not authenticated", Reply.result 42 none], []) :=
  (C8_auth_gate mwInfo ⟨false, true, "sid"⟩ ⟨"method", 42, none, "system.info", []⟩
    "system" "info" _ _ rfl rfl rfl rfl rfl).2

/-- C4: calling a `_job`-marked method never returns a job id — the call
`Job()` in `Middleware.call_method` omits the three required constructor
parameters of `Job.__init__(self, method, args, options)` and raises
`TypeError` before any job is created, so the caller receives a
`TypeError` error reply instead of the job id, and nothing is invoked or
submitted. -/
theorem C4_job_constructor_bug :
    Middleware.call_method mwJob true ⟨"method", 3, none, "disk.wipe", []⟩
      = { sent := [], ret := .error .typeError, invoked := [] }
    ∧ Application.call_method mwJob ⟨true, true, "sid"⟩ ⟨"method", 3, none, "disk.wipe", []⟩
      = ([Reply.error 3 "TypeError"], []) :=
  ⟨rfl, rfl⟩

/-- C10 counterexample: a `connect` message received on a session that is
already connected but not authenticated is processed (answered with
`connected`) and returns early, so it is not additionally answered with
the `'Not authenticated'` error reply — the claim says every inbound
message on such a session receives that extra reply. -/
theorem C10_counterexample :
    (Application.on_message mwInfo ⟨false, true, "sid"⟩ ⟨"connect", 7, some "1", "", []⟩).1
      = [Reply.connected "sid"]
    ∧ Reply.error 7 "Not authenticated"
        ∉ (Application.on_message mwInfo ⟨false, true, "sid"⟩ ⟨"connect", 7, some "1", "", []⟩).1 := by
  exact ⟨rfl, by decide⟩

/-- C10 (amended): on a connected, unauthenticated session, every inbound
message other than a `connect` is additionally answered with the
`'Not authenticated'` error reply after it is processed; in particular a
`method` message, already answered by the call path, receives at least
two replies. -/
theorem C10_not_authenticated_extra_reply (mw : Middleware) (s : Session) (m : Message)
    (h1 : s.handshake = true) (h2 : s.authenticated = false) (h3 : m.msg ≠ "connect") :
    Application.on_message mw s m
      = ((if m.msg = "method" then (Application.call_method mw s m).1 else [])
           ++ [Reply.error m.id "Not authenticated"], s,
         (if m.msg = "method" then (Application.call_method mw s m).2 else []))
    ∧ (m.msg = "method" → 2 ≤ (Application.on_message mw s m).1.length) := by
  have heq : Application.on_message mw s m
      = ((if m.msg = "method" then (Application.call_method mw s m).1 else [])
           ++ [Reply.error m.id "Not authenticated"], s,
         (if m.msg = "method" then (Application.call_method mw s m).2 else [])) := by
    by_cases hm : m.msg = "method" <;> simp [Application.on_message, h1, h2, h3, hm]
  refine ⟨heq, fun hm => ?_⟩
  rw [heq]
  simp only [hm, if_pos rfl]
  have := Application.call_method_length mw s m
  simp
  omega

/-- C10 witness for the amended statement: an unauthenticated `method`
call gets both the call-path replies and the trailing error reply. -/
theorem C10_not_authenticated_extra_reply_witness :
    2 ≤ (Application.on_message mwInfo ⟨false, true, "sid"⟩ ⟨"method", 9, none, "system.info", []⟩).1.length :=
  (C10_not_authenticated_extra_reply mwInfo ⟨false, true, "sid"⟩
    ⟨"method", 9, none, "system.info", []⟩ rfl rfl (by decide)).2 rfl

/-!
Transition-system embedding of `class JobsQueue` (job.py) together with
the job-execution greenlets (`Job.run`).  Shared mutable Python objects
are modelled by stores: `jobs : Nat → Option Job` is the heap of `Job`
objects addressed by job id (the ids the `JobsDeque` counter assigns are
unique, and `JobsQueue.queue` holds object references, modelled as ids),
and lock objects live in a heap addressed by an allocation id, since a
registry entry can be popped while a `job.lock` back-reference to the
same object survives.

Interleaving granularity: gevent greenlets are cooperative — control
switches only at blocking points (`queue_event.wait()`, a blocking
`semaphore.acquire()`).  The body of one `JobsQueue.next` scan contains
no blocking call (`Semaphore.acquire` on a semaphore just observed free
returns without switching), so a scan runs atomically; it is one step
here.  A running job yields arbitrarily, so `set_state('RUNNING')`, the
method body with its terminal `set_state`, and `release_lock` are
separate steps, interleaved arbitrarily with the scheduler and other
jobs. -/

/-- Pointwise update of a function-typed store. -/
def setKey {α β : Type} [DecidableEq α] (f : α → Option β) (k : α) (v : Option β) :
    α → Option β :=
  fun k2 => if k2 = k then v else f k2

/-- Embedding of `class JobSharedLock`: the lock name, the `self.jobs`
list (job ids, in order, duplicates possible since `add_job` appends
unconditionally), and the binary gevent `Semaphore` (`true` = held;
acquire/release calls are balanced, one acquire at dispatch and one
release in `release_lock`, so a boolean is adequate). -/
structure JobSharedLock where
  name : String
  jobs : List Nat
  semaphore : Bool
deriving DecidableEq, Repr

/-- State owned by the `JobsQueue` lock machinery: the heap of
`JobSharedLock` objects and the `job_locks` name registry. -/
structure LockSt where
  locks : Nat → Option JobSharedLock
  registry : String → Option Nat
  nextLock : Nat

/-- Embedding of `JobsQueue.get_lock`, for the job with id `jid` whose
`get_lock_name()` is `lockName`:

```
name = job.get_lock_name()
if name is None:
    return None
lock = self.job_locks.get(name)
if lock is None:
    lock = JobSharedLock(self, name)
    self.job_locks[lock.name] = lock
lock.add_job(job)
return lock
```

Note `lock.add_job(job)` appends the job on every call. -/
def getLockOp (ls : LockSt) (jid : Nat) (lockName : Option String) : Option Nat × LockSt :=
  match lockName with
  | none => (none, ls)
  | some name =>
    match ls.registry name with
    | some lid =>
      match ls.locks lid with
      | some L =>
        (some lid, { ls with locks := setKey ls.locks lid (some { L with jobs := L.jobs ++ [jid] }) })
      | none => (some lid, ls)
    | none =>
      let lid := ls.nextLock
      (some lid,
       { locks := setKey ls.locks lid (some { name := name, jobs := [jid], semaphore := false }),
         registry := setKey ls.registry name (some lid),
         nextLock := lid + 1 })

/-- Embedding of `JobsQueue.release_lock` for the job `jid` whose
`job.get_lock()` back-reference is `lockRef`:

```
lock = job.get_lock()
if not lock:
    return
lock.remove_job(job)
lock.release()
if len(lock.get_jobs()) == 0:
    self.job_locks.pop(lock.name)
self.queue_event.set()
```

`list.remove` drops the first occurrence; the returned boolean records
whether `queue_event.set()` was reached. -/
def releaseLockOp (ls : LockSt) (jid : Nat) (lockRef : Option Nat) : LockSt × Bool :=
  match lockRef with
  | none => (ls, false)
  | some lid =>
    match ls.locks lid with
    | none => (ls, false)
    | some L =>
      let L2 : JobSharedLock := { L with jobs := L.jobs.erase jid, semaphore := false }
      let ls2 := { ls with locks := setKey ls.locks lid (some L2) }
      let ls3 :=
        if L2.jobs = [] then { ls2 with registry := setKey ls2.registry L2.name none } else ls2
      (ls3, true)

/-- Global state: the heap of jobs, the `JobsDeque` id counter, the
pending `JobsQueue.queue` (job ids in FIFO order), the lock state, the
`queue_event` flag, plus bookkeeping of the execution of `JobsQueue.run`
and the spawned `Job.run` greenlets: ids handed to `gevent.spawn`
(`dispatched`), ids whose `run` already executed `release_lock`
(`released`), and whether the scheduler greenlet died of an unhandled
exception (`crashed`). -/
structure Sys where
  jobs : Nat → Option Job
  count : Nat
  queue : List Nat
  lockSt : LockSt
  queue_event : Bool
  dispatched : List Nat
  released : List Nat
  crashed : Bool

/-- State of the job with id `jid`. -/
def stateOf (s : Sys) (jid : Nat) : Option State :=
  (s.jobs jid).map Job.state

/-- Embedding of `JobsQueue.add` (with `JobsDeque.add` assigning
`count + 1` as the id of the freshly constructed job): store the job,
append it to the pending queue, set `queue_event`.  The deque history
additionally evicts old entries, which only affects lookup, not the job
objects; the heap here keeps every job. -/
def submitJob (s : Sys) (lockName : Option String) (now : Nat) : Sys :=
  let id := s.count + 1
  let job := { Job.new lockName now with id := some id }
  { s with count := id, jobs := setKey s.jobs id (some job),
           queue := s.queue ++ [id], queue_event := true }

/-- Result of one pass of the scan in `JobsQueue.next`. -/
inductive ScanRes where
  | found (jid : Nat)
  | nofound
  | crash
deriving DecidableEq, Repr

/-- Embedding of the scan loop in `JobsQueue.next`:

```
for job in self.queue:
    lock = self.get_lock(job)
    if lock is None or not lock.locked():
        found = job
        job.set_lock(lock)
        break
```

`get_lock` mutates the registry for every scanned job.  When the first
eligible job has no lock, `job.set_lock(None)` assigns `self.lock = None`
and then `None.acquire()` raises `AttributeError`, killing the scheduler
greenlet: that is the `crash` result.  Otherwise `set_lock` stores the
back-reference and acquires the (just observed free) semaphore.  The
`none` branches for a queue id or registry lock id that fails to resolve
are unreachable: the queue holds live job ids and registry entries point
at live locks (invariants proved below). -/
def scanQueue : List Nat → (Nat → Option Job) → LockSt → ScanRes × (Nat → Option Job) × LockSt
  | [], jobs, ls => (.nofound, jobs, ls)
  | jid :: rest, jobs, ls =>
    match jobs jid with
    | none => scanQueue rest jobs ls
    | some job =>
      match getLockOp ls jid job.lockName with
      | (none, ls2) => (.crash, jobs, ls2)
      | (some lid, ls2) =>
        match ls2.locks lid with
        | none => scanQueue rest jobs ls2
        | some L =>
          if L.semaphore then scanQueue rest jobs ls2
          else
            (.found jid,
             setKey jobs jid (some { job with lock := some lid }),
             { ls2 with locks := setKey ls2.locks lid (some { L with semaphore := true }) })

/-- One iteration of the `JobsQueue.run` loop around `JobsQueue.next`
(enabled while `queue_event` is set): scan the queue; on success remove
the found job from the queue, clear `queue_event` if the queue became
empty, and spawn the job (`dispatched`); with no eligible job clear
`queue_event` (the loop in `next` then waits again); on the
`set_lock(None)` crash the exception propagates and the scheduler
greenlet dies before touching queue or event. -/
def scheduleStep (s : Sys) : Sys :=
  match scanQueue s.queue s.jobs s.lockSt with
  | (.crash, jobs2, ls2) => { s with jobs := jobs2, lockSt := ls2, crashed := true }
  | (.nofound, jobs2, ls2) => { s with jobs := jobs2, lockSt := ls2, queue_event := false }
  | (.found jid, jobs2, ls2) =>
    let q := s.queue.erase jid
    { s with jobs := jobs2, lockSt := ls2, queue := q,
             queue_event := if q = [] then false else s.queue_event,
             dispatched := s.dispatched ++ [jid] }

/-- First step of a spawned `Job.run`: `self.set_state('RUNNING')`. -/
def startRun (s : Sys) (jid : Nat) (now : Nat) : Sys :=
  match s.jobs jid with
  | none => s
  | some job =>
    match job.set_state "RUNNING" now with
    | none => s
    | some job2 => { s with jobs := setKey s.jobs jid (some job2) }

/-- Completion of the method body inside `Job.run`: on success
`set_result` then `set_state('SUCCESS')`, on an exception
`set_state('FAILED')` with no result. -/
def finishRun (s : Sys) (jid : Nat) (ok : Bool) (v : Option Value) (now : Nat) : Sys :=
  match s.jobs jid with
  | none => s
  | some job =>
    let job := if ok then job.set_result v else job
    match job.set_state (if ok then "SUCCESS" else "FAILED") now with
    | none => s
    | some job2 => { s with jobs := setKey s.jobs jid (some job2) }

/-- The `finally` clause of `Job.run`: `queue.release_lock(self)`. -/
def releaseRun (s : Sys) (jid : Nat) : Sys :=
  match s.jobs jid with
  | none => s
  | some job =>
    let res := releaseLockOp s.lockSt jid job.lock
    { s with lockSt := res.1, queue_event := s.queue_event || res.2,
             released := s.released ++ [jid] }

/-- Interleaved steps of job submitters, the scheduler loop and the
spawned job greenlets. -/
inductive Step : Sys → Sys → Prop where
  | submit (s : Sys) (lockName : Option String) (now : Nat) :
      Step s (submitJob s lockName now)
  | schedule (s : Sys) (h1 : s.queue_event = true) (h2 : s.crashed = false) :
      Step s (scheduleStep s)
  | start (s : Sys) (jid now : Nat) (h1 : jid ∈ s.dispatched)
      (h2 : stateOf s jid = some State.WAITING) :
      Step s (startRun s jid now)
  | finish (s : Sys) (jid : Nat) (ok : Bool) (v : Option Value) (now : Nat)
      (h1 : jid ∈ s.dispatched) (h2 : stateOf s jid = some State.RUNNING) :
      Step s (finishRun s jid ok v now)
  | release (s : Sys) (jid : Nat) (h1 : jid ∈ s.dispatched)
      (h2 : stateOf s jid = some State.SUCCESS ∨ stateOf s jid = some State.FAILED)
      (h3 : jid ∉ s.released) :
      Step s (releaseRun s jid)

/-- The daemon starts with no jobs, an empty queue and registry, and the
event clear. -/
def initSys : Sys :=
  { jobs := fun _ => none, count := 0, queue := [],
    lockSt := { locks := fun _ => none, registry := fun _ => none, nextLock := 0 },
    queue_event := false, dispatched := [], released := [], crashed := false }

/-- States reachable by interleaved execution from the initial state. -/
inductive Reachable : Sys → Prop where
  | init : Reachable initSys
  | step {s s2 : Sys} : Reachable s → Step s s2 → Reachable s2

/-- C5: when the first eligible job of the scan has no lock name, the
selection does not succeed: `job.set_lock(None)` raises
`AttributeError` (`None.acquire()`), the scheduler greenlet dies, and
the job is neither dispatched nor removed from the queue — the claim
says selection succeeds for every eligible job including jobs with no
lock.  Failing input: a fresh system after submitting one job with no
lock option. -/
theorem C5_lockless_selection_crash :
    Reachable (submitJob initSys none 0)
    ∧ (submitJob initSys none 0).queue_event = true
    ∧ (scheduleStep (submitJob initSys none 0)).crashed = true
    ∧ (scheduleStep (submitJob initSys none 0)).dispatched = []
    ∧ (scheduleStep (submitJob initSys none 0)).queue = [1] := by
  exact ⟨Reachable.step Reachable.init (Step.submit initSys none 0), rfl, rfl, rfl, rfl⟩

/-- Trace for C6: two jobs sharing lock name `x`, the second scanned once
while the first holds the lock (adding a first stale reference), then
selected and completed. -/
def C6s1 : Sys := submitJob initSys (some "x") 0
/-- Trace for C6, after dispatching job 1. -/
def C6s2 : Sys := scheduleStep C6s1
/-- Trace for C6, after submitting job 2. -/
def C6s3 : Sys := submitJob C6s2 (some "x") 0
/-- Trace for C6, after a scan that skips job 2 (lock held by job 1);
`get_lock` has appended job 2 to the lock a first time. -/
def C6s4 : Sys := scheduleStep C6s3
/-- Trace for C6, job 1 running. -/
def C6s5 : Sys := startRun C6s4 1 0
/-- Trace for C6, job 1 succeeded. -/
def C6s6 : Sys := finishRun C6s5 1 true none 0
/-- Trace for C6, job 1 released the lock (the lock keeps the stale
reference to job 2, so the registry entry survives; the event is set). -/
def C6s7 : Sys := releaseRun C6s6 1
/-- Trace for C6, job 2 dispatched (`get_lock` appended it a second
time). -/
def C6s8 : Sys := scheduleStep C6s7
/-- Trace for C6, job 2 running. -/
def C6s9 : Sys := startRun C6s8 2 0
/-- Trace for C6, job 2 succeeded. -/
def C6s10 : Sys := finishRun C6s9 2 true none 0
/-- Trace for C6, job 2 released: `remove_job` drops only one of the two
occurrences of job 2, the jobs list stays nonempty, and the registry
entry for `x` is never popped. -/
def C6s11 : Sys := releaseRun C6s10 2

/-- C6: in a reachable execution in which every job that ever referenced
lock name `x` has terminated and executed its release, the registry
still holds the entry for `x` (with a stale duplicate reference to job
2) — the claim says the entry is deleted by the release that removes
its last referencing job.  The duplicate comes from `get_lock` running
again on every scan of a still-queued job. -/
theorem C6_stale_registry_entry_bug :
    Reachable C6s11
    ∧ (C6s11.lockSt.registry "x").isSome = true
    ∧ (C6s11.lockSt.locks 0).map JobSharedLock.jobs = some [2]
    ∧ C6s11.released = [1, 2]
    ∧ stateOf C6s11 1 = some State.SUCCESS
    ∧ stateOf C6s11 2 = some State.SUCCESS := by
  refine ⟨?_, rfl, rfl, rfl, rfl, rfl⟩
  have r1 : Reachable C6s1 := Reachable.step Reachable.init (Step.submit initSys (some "x") 0)
  have r2 : Reachable C6s2 := Reachable.step r1 (Step.schedule C6s1 rfl rfl)
  have r3 : Reachable C6s3 := Reachable.step r2 (Step.submit C6s2 (some "x") 0)
  have r4 : Reachable C6s4 := Reachable.step r3 (Step.schedule C6s3 rfl rfl)
  have r5 : Reachable C6s5 := Reachable.step r4 (Step.start C6s4 1 0 (by decide) rfl)
  have r6 : Reachable C6s6 := Reachable.step r5 (Step.finish C6s5 1 true none 0 (by decide) rfl)
  have r7 : Reachable C6s7 :=
    Reachable.step r6 (Step.release C6s6 1 (by decide) (Or.inl rfl) (by decide))
  have r8 : Reachable C6s8 := Reachable.step r7 (Step.schedule C6s7 rfl rfl)
  have r9 : Reachable C6s9 := Reachable.step r8 (Step.start C6s8 2 0 (by decide) rfl)
  have r10 : Reachable C6s10 := Reachable.step r9 (Step.finish C6s9 2 true none 0 (by decide) rfl)
  exact Reachable.step r10 (Step.release C6s10 2 (by decide) (Or.inl rfl) (by decide))

@[simp]
lemma setKey_same {α β : Type} [DecidableEq α] (f : α → Option β) (k : α) (v : Option β) :
    setKey f k v k = v := by
  simp [setKey]

lemma setKey_ne {α β : Type} [DecidableEq α] (f : α → Option β) (k : α) (v : Option β)
    {k2 : α} (h : k2 ≠ k) : setKey f k v k2 = f k2 := by
  simp [setKey, h]

/-- Well-formedness of the lock registry: every `job_locks` entry points
at a live lock object carrying that name. -/
def RegLive (ls : LockSt) : Prop :=
  ∀ n lid, ls.registry n = some lid → ∃ L, ls.locks lid = some L ∧ L.name = n

/-- Lock allocation ids are below the allocation counter. -/
def LocksLt (ls : LockSt) : Prop :=
  ∀ lid L, ls.locks lid = some L → lid < ls.nextLock

/-- Effect of a sequence of `get_lock` calls on the lock state: the
allocation counter grows, existing lock objects keep their name and
semaphore and only gain job references, fresh objects get ids at or
above the old counter, and registry entries are never removed or
overwritten. -/
structure LsStep (ls ls2 : LockSt) : Prop where
  next_le : ls.nextLock ≤ ls2.nextLock
  old : ∀ lid L, ls.locks lid = some L → ∃ L2, ls2.locks lid = some L2
      ∧ L2.name = L.name ∧ L2.semaphore = L.semaphore ∧ (∀ x, x ∈ L.jobs → x ∈ L2.jobs)
  fresh : ∀ lid L2, ls2.locks lid = some L2 → ls.locks lid = none → ls.nextLock ≤ lid
  reg_mono : ∀ n lid, ls.registry n = some lid → ls2.registry n = some lid

lemma LsStep.refl (ls : LockSt) : LsStep ls ls := by
  refine ⟨le_refl _, ?_, ?_, ?_⟩
  · intro lid L h
    exact ⟨L, h, rfl, rfl, fun x hx => hx⟩
  · intro lid L2 h1 h2
    rw [h1] at h2
    cases h2
  · intro n lid h
    exact h

lemma LsStep.trans {ls1 ls2 ls3 : LockSt} (a : LsStep ls1 ls2) (b : LsStep ls2 ls3) :
    LsStep ls1 ls3 := by
  refine ⟨le_trans a.next_le b.next_le, ?_, ?_, ?_⟩
  · intro lid L h
    obtain ⟨L2, h2, hn2, hs2, hm2⟩ := a.old lid L h
    obtain ⟨L3, h3, hn3, hs3, hm3⟩ := b.old lid L2 h2
    exact ⟨L3, h3, hn3.trans hn2, hs3.trans hs2, fun x hx => hm3 x (hm2 x hx)⟩
  · intro lid L3 h3 h1
    cases h2 : ls2.locks lid with
    | some L2 => exact a.fresh lid L2 h2 h1
    | none => exact le_trans a.next_le (b.fresh lid L3 h3 h2)
  · intro n lid h
    exact b.reg_mono n lid (a.reg_mono n lid h)

/-- Specification of one `get_lock` call: it performs an `LsStep`,
preserves registry and counter well-formedness, returns `None` (leaving
the state untouched) exactly for a job with no lock name, and otherwise
returns a live lock that now references the job, is registered under its
name — which is the requested name — and whose semaphore and name agree
with any pre-existing object at that id. -/
lemma getLockOp_spec (ls : LockSt) (jid : Nat) (lockName : Option String)
    (hreg : RegLive ls) (hlt : LocksLt ls) :
    ∀ r ls2, getLockOp ls jid lockName = (r, ls2) →
      LsStep ls ls2 ∧ RegLive ls2 ∧ LocksLt ls2
      ∧ (r = none → ls2 = ls)
      ∧ (∀ lid, r = some lid →
          ∃ L2, ls2.locks lid = some L2
            ∧ jid ∈ L2.jobs
            ∧ ls2.registry L2.name = some lid
            ∧ lockName = some L2.name
            ∧ (∀ L0, ls.locks lid = some L0 →
                L2.semaphore = L0.semaphore ∧ L2.name = L0.name)) := by
  intro r ls2 h
  match lockName, h with
  | none, h =>
    rw [getLockOp] at h
    cases h
    refine ⟨LsStep.refl ls, hreg, hlt, fun _ => rfl, fun lid hr => ?_⟩
    cases hr
  | some name, h =>
    cases hr : ls.registry name with
    | some lid0 =>
      cases hl : ls.locks lid0 with
      | none =>
        obtain ⟨L, hL, _⟩ := hreg name lid0 hr
        rw [hl] at hL
        cases hL
      | some L =>
        simp only [getLockOp, hr, hl] at h
        cases h
        have hname : L.name = name := by
          obtain ⟨L2, hL2, hn⟩ := hreg name lid0 hr
          rw [hl] at hL2
          cases hL2
          exact hn
        refine ⟨?_, ?_, ?_, ?_, ?_⟩
        · refine ⟨le_refl _, ?_, ?_, fun n lid hn => hn⟩
          · intro lid L1 h1
            by_cases he : lid = lid0
            · subst he
              rw [hl] at h1
              cases h1
              exact ⟨{ L with jobs := L.jobs ++ [jid] }, by simp, rfl, rfl,
                fun x hx => List.mem_append_left _ hx⟩
            · exact ⟨L1, by simp only [setKey_ne _ _ _ he]; exact h1, rfl, rfl, fun x hx => hx⟩
          · intro lid L2 h2 h1
            by_cases he : lid = lid0
            · subst he
              rw [hl] at h1
              cases h1
            · simp only [setKey_ne _ _ _ he] at h2
              rw [h1] at h2
              cases h2
        · intro n lid hn
          obtain ⟨L1, hL1, hn1⟩ := hreg n lid hn
          by_cases he : lid = lid0
          · subst he
            rw [hl] at hL1
            cases hL1
            exact ⟨{ L with jobs := L.jobs ++ [jid] }, by simp, hn1⟩
          · exact ⟨L1, by simp only [setKey_ne _ _ _ he]; exact hL1, hn1⟩
        · intro lid L2 h2
          by_cases he : lid = lid0
          · subst he
            exact hlt lid L hl
          · simp only [setKey_ne _ _ _ he] at h2
            exact hlt lid L2 h2
        · intro hcon
          cases hcon
        · intro lid hlid
          cases hlid
          refine ⟨{ L with jobs := L.jobs ++ [jid] }, by simp, ?_, ?_, ?_, ?_⟩
          · exact List.mem_append_right _ (List.mem_singleton.mpr rfl)
          · show ls.registry L.name = some lid0
            rw [hname]
            exact hr
          · rw [hname]
          · intro L0 h0
            rw [hl] at h0
            cases h0
            exact ⟨rfl, rfl⟩
    | none =>
      simp only [getLockOp, hr] at h
      cases h
      have hfree : ls.locks ls.nextLock = none := by
        cases hv : ls.locks ls.nextLock with
        | none => rfl
        | some L => exact absurd (hlt _ L hv) (by omega)
      refine ⟨?_, ?_, ?_, ?_, ?_⟩
      · refine ⟨Nat.le_succ _, ?_, ?_, ?_⟩
        · intro lid L1 h1
          have hne : lid ≠ ls.nextLock := by
            intro he
            rw [he, hfree] at h1
            cases h1
          exact ⟨L1, by simp only [setKey_ne _ _ _ hne]; exact h1, rfl, rfl, fun x hx => hx⟩
        · intro lid L2 h2 h1
          by_cases he : lid = ls.nextLock
          · omega
          · simp only [setKey_ne _ _ _ he] at h2
            rw [h1] at h2
            cases h2
        · intro n lid hn
          have hne : n ≠ name := by
            intro he
            rw [he, hr] at hn
            cases hn
          show setKey ls.registry name (some ls.nextLock) n = some lid
          rw [setKey_ne _ _ _ hne]
          exact hn
      · intro n lid hn
        by_cases he : n = name
        · subst he
          simp only [setKey_same] at hn
          cases hn
          exact ⟨{ name := n, jobs := [jid], semaphore := false }, by simp, rfl⟩
        · simp only [setKey_ne _ _ _ he] at hn
          obtain ⟨L1, hL1, hn1⟩ := hreg n lid hn
          have hne : lid ≠ ls.nextLock := by
            intro hcon
            rw [hcon, hfree] at hL1
            cases hL1
          exact ⟨L1, by simp only [setKey_ne _ _ _ hne]; exact hL1, hn1⟩
      · intro lid L2 h2
        by_cases he : lid = ls.nextLock
        · subst he
          exact Nat.lt_succ_self ls.nextLock
        · simp only [setKey_ne _ _ _ he] at h2
          exact Nat.lt_succ_of_lt (hlt lid L2 h2)
      · intro hcon
        cases hcon
      · intro lid hlid
        cases hlid
        refine ⟨{ name := name, jobs := [jid], semaphore := false }, by simp, ?_, by simp, rfl, ?_⟩
        · exact List.mem_singleton.mpr rfl
        · intro L0 h0
          rw [hfree] at h0
          cases h0

/-- Specification of one scan pass of `JobsQueue.next`: the lock state
stays well-formed; when no job is selected (or the scheduler crashes on a
lockless job) the job heap is untouched and the lock state underwent only
`get_lock` effects (`LsStep`); when a job is selected it came from the
queue, its back-reference now points at a lock that was observed free at
selection (and whose pre-scan object, if any, was already free), that
references the job, is registered under the name the job computes, and
whose semaphore is acquired in the final state. -/
lemma scanQueue_spec :
    ∀ (q : List Nat) (jobs : Nat → Option Job) (ls : LockSt),
      RegLive ls → LocksLt ls →
      ∀ res jobs2 ls2, scanQueue q jobs ls = (res, jobs2, ls2) →
        RegLive ls2 ∧ LocksLt ls2
        ∧ ((res = ScanRes.nofound ∨ res = ScanRes.crash) → jobs2 = jobs ∧ LsStep ls ls2)
        ∧ (∀ jid, res = ScanRes.found jid →
            ∃ job lid lsMid L,
              jobs jid = some job
              ∧ jid ∈ q
              ∧ jobs2 = setKey jobs jid (some { job with lock := some lid })
              ∧ LsStep ls lsMid
              ∧ lsMid.locks lid = some L
              ∧ L.semaphore = false
              ∧ jid ∈ L.jobs
              ∧ lsMid.registry L.name = some lid
              ∧ job.lockName = some L.name
              ∧ (∀ L0, ls.locks lid = some L0 → L0.semaphore = false)
              ∧ ls2 = { lsMid with
                          locks := setKey lsMid.locks lid (some { L with semaphore := true }) }) := by
  intro q
  induction q with
  | nil =>
    intro jobs ls hreg hlt res jobs2 ls2 h
    simp only [scanQueue] at h
    cases h
    refine ⟨hreg, hlt, fun _ => ⟨rfl, LsStep.refl ls⟩, ?_⟩
    intro jid hcon
    cases hcon
  | cons jid0 rest ih =>
    intro jobs ls hreg hlt res jobs2 ls2 h
    cases hj : jobs jid0 with
    | none =>
      have heq : scanQueue (jid0 :: rest) jobs ls = scanQueue rest jobs ls := by
        simp [scanQueue, hj]
      rw [heq] at h
      obtain ⟨h1, h2, h3, h4⟩ := ih jobs ls hreg hlt res jobs2 ls2 h
      refine ⟨h1, h2, h3, ?_⟩
      intro jid hf
      obtain ⟨job, lid, lsMid, L, c1, c2, c3⟩ := h4 jid hf
      exact ⟨job, lid, lsMid, L, c1, List.mem_cons_of_mem _ c2, c3⟩
    | some job =>
      obtain ⟨r1, ls1, hg⟩ : ∃ r1 ls1, getLockOp ls jid0 job.lockName = (r1, ls1) :=
        ⟨_, _, rfl⟩
      obtain ⟨hstep1, hreg1, hlt1, hnone1, hsome1⟩ :=
        getLockOp_spec ls jid0 job.lockName hreg hlt r1 ls1 hg
      cases r1 with
      | none =>
        have hback : ls1 = ls := hnone1 rfl
        subst hback
        have heq : scanQueue (jid0 :: rest) jobs ls1 = (ScanRes.crash, jobs, ls1) := by
          simp [scanQueue, hj, hg]
        rw [heq] at h
        cases h
        refine ⟨hreg1, hlt1, fun _ => ⟨rfl, hstep1⟩, ?_⟩
        intro jid hcon
        cases hcon
      | some lid =>
        obtain ⟨L2, hL2, hmem2, hreg2, hname2, holdsem2⟩ := hsome1 lid rfl
        cases hll : ls1.locks lid with
        | none =>
          rw [hll] at hL2
          cases hL2
        | some L =>
          have hLL2 : L2 = L := by
            rw [hll] at hL2
            cases hL2
            rfl
          subst hLL2
          by_cases hsem : L2.semaphore = true
          · have heq : scanQueue (jid0 :: rest) jobs ls = scanQueue rest jobs ls1 := by
              simp [scanQueue, hj, hg, hll, hsem]
            rw [heq] at h
            obtain ⟨h1, h2, h3, h4⟩ := ih jobs ls1 hreg1 hlt1 res jobs2 ls2 h
            refine ⟨h1, h2, ?_, ?_⟩
            · intro hres
              obtain ⟨hj2, hstep2⟩ := h3 hres
              exact ⟨hj2, hstep1.trans hstep2⟩
            · intro jid hf
              obtain ⟨job3, lid3, lsMid3, L3, c1, c2, c3, c4, c5, c6, c7, c8, c9, c10, c11⟩ :=
                h4 jid hf
              refine ⟨job3, lid3, lsMid3, L3, c1, List.mem_cons_of_mem _ c2, c3,
                hstep1.trans c4, c5, c6, c7, c8, c9, ?_, c11⟩
              intro L0 h0
              obtain ⟨Lm, hLm, hnm, hsm, _⟩ := hstep1.old lid3 L0 h0
              have := c10 Lm hLm
              rw [← hsm]
              exact this
          · have hsemf : L2.semaphore = false := by
              cases hv : L2.semaphore with
              | true => exact absurd hv hsem
              | false => rfl
            have heq : scanQueue (jid0 :: rest) jobs ls
                = (ScanRes.found jid0,
                   setKey jobs jid0 (some { job with lock := some lid }),
                   { ls1 with locks := setKey ls1.locks lid (some { L2 with semaphore := true }) }) := by
              simp [scanQueue, hj, hg, hll, hsemf]
            rw [heq] at h
            cases h
            refine ⟨?_, ?_, ?_, ?_⟩
            · intro n lid2 hn
              obtain ⟨L1, hL1, hn1⟩ := hreg1 n lid2 hn
              by_cases he : lid2 = lid
              · subst he
                rw [hll] at hL1
                cases hL1
                exact ⟨{ L2 with semaphore := true }, by simp, hn1⟩
              · exact ⟨L1, by simp only [setKey_ne _ _ _ he]; exact hL1, hn1⟩
            · intro lid2 L1 h1
              by_cases he : lid2 = lid
              · subst he
                exact hlt1 lid2 L2 hll
              · simp only [setKey_ne _ _ _ he] at h1
                exact hlt1 lid2 L1 h1
            · intro hcon
              rcases hcon with hcon | hcon <;> cases hcon
            · intro jid hf
              have hjid : jid = jid0 := by
                cases hf
                rfl
              subst hjid
              refine ⟨job, lid, ls1, L2, hj, List.mem_cons_self _ _, rfl, hstep1, hll,
                hsemf, hmem2, hreg2, hname2, ?_, rfl⟩
              intro L0 h0
              obtain ⟨hs, _⟩ := holdsem2 L0 h0
              rw [← hs]
              exact hsemf

/-- The job `jid` currently holds the lock object `lid`: its `job.lock`
back-reference points at `lid` and its `run` has not yet executed
`release_lock`.  The semaphore is acquired exactly on this interval (at
selection in `next`, released in `release_lock`). -/
def Holder (s : Sys) (jid lid : Nat) : Prop :=
  ∃ job, s.jobs jid = some job ∧ job.lock = some lid ∧ jid ∉ s.released

/-- Inductive invariant of the scheduler system. -/
structure Inv (s : Sys) : Prop where
  jobs_bound : ∀ jid job, s.jobs jid = some job → jid ≤ s.count
  reg_live : RegLive s.lockSt
  locks_lt : LocksLt s.lockSt
  lockRef_live : ∀ jid job lid, s.jobs jid = some job → job.lock = some lid →
      ∃ L, s.lockSt.locks lid = some L ∧ job.lockName = some L.name
  dispatched_lock : ∀ jid, jid ∈ s.dispatched →
      ∃ job lid, s.jobs jid = some job ∧ job.lock = some lid
  holder_props : ∀ jid lid, Holder s jid lid →
      ∃ L, s.lockSt.locks lid = some L ∧ L.semaphore = true ∧ jid ∈ L.jobs
        ∧ s.lockSt.registry L.name = some lid
  holder_uniq : ∀ jid1 jid2 lid, Holder s jid1 lid → Holder s jid2 lid → jid1 = jid2
  released_terminal : ∀ jid, jid ∈ s.released →
      ∃ job, s.jobs jid = some job ∧ (job.state = State.SUCCESS ∨ job.state = State.FAILED)
  running_lock : ∀ jid job, s.jobs jid = some job → job.state = State.RUNNING →
      ∃ lid, job.lock = some lid
  queue_facts : ∀ jid, jid ∈ s.queue →
      ∃ job, s.jobs jid = some job ∧ job.state = State.WAITING ∧ job.lock = none
        ∧ jid ∉ s.dispatched
  queue_nodup : s.queue.Nodup

/-- The initial state satisfies the invariant. -/
lemma Inv_init : Inv initSys := by
  refine ⟨?_, ?_, ?_, ?_, ?_, ?_, ?_, ?_, ?_, ?_, ?_⟩
  · intro jid job h
    cases h
  · intro n lid h
    cases h
  · intro lid L h
    cases h
  · intro jid job lid h
    cases h
  · intro jid h
    cases h
  · intro jid lid h
    obtain ⟨job, hj, _⟩ := h
    cases hj
  · intro jid1 jid2 lid h1 h2
    obtain ⟨job, hj, _⟩ := h1
    cases hj
  · intro jid h
    cases h
  · intro jid job h
    cases h
  · intro jid h
    cases h
  · exact List.nodup_nil

/-- Inversion of a successful `set_state`: the identity fields are
untouched, the state becomes the named member, `time_finished` is
stamped, and the previous state was not terminal. -/
lemma set_state_inv {j j2 : Job} {str : String} {now : Nat}
    (h : j.set_state str now = some j2) :
    j2.id = j.id ∧ j2.lockName = j.lockName ∧ j2.lock = j.lock
      ∧ State.ofName str = some j2.state ∧ j2.time_finished = some now
      ∧ ¬(j.state = State.SUCCESS ∨ j.state = State.FAILED) := by
  unfold Job.set_state at h
  by_cases cA : j.state = State.WAITING ∧ (str = "WAITING" ∨ str = "SUCCESS")
  · rw [if_pos cA] at h
    cases h
  · rw [if_neg cA] at h
    by_cases cB : j.state = State.RUNNING ∧ (str = "WAITING" ∨ str = "RUNNING")
    · rw [if_pos cB] at h
      cases h
    · rw [if_neg cB] at h
      by_cases cC : j.state = State.SUCCESS ∨ j.state = State.FAILED
      · rw [if_pos cC] at h
        cases h
      · rw [if_neg cC] at h
        cases hof : State.ofName str with
        | none =>
          rw [hof] at h
          cases h
        | some st =>
          rw [hof] at h
          cases h
          exact ⟨rfl, rfl, rfl, rfl, rfl, cC⟩

/-- Preservation of the invariant by `JobsQueue.add`. -/
lemma Inv_submit (s : Sys) (lockName : Option String) (now : Nat) (hInv : Inv s) :
    Inv (submitJob s lockName now) := by
  have hfresh : s.jobs (s.count + 1) = none := by
    cases hv : s.jobs (s.count + 1) with
    | none => rfl
    | some job => exact absurd (hInv.jobs_bound _ job hv) (by omega)
  have hHold : ∀ jid lid, Holder (submitJob s lockName now) jid lid → Holder s jid lid := by
    intro jid lid ⟨job, hj, hl, hrel⟩
    by_cases he : jid = s.count + 1
    · subst he
      simp only [submitJob, setKey_same] at hj
      cases hj
      cases hl
    · simp only [submitJob, setKey_ne _ _ _ he] at hj
      exact ⟨job, hj, hl, hrel⟩
  refine ⟨?_, hInv.reg_live, hInv.locks_lt, ?_, ?_, ?_, ?_, ?_, ?_, ?_, ?_⟩
  · intro jid job hj
    by_cases he : jid = s.count + 1
    · subst he
      exact le_refl _
    · simp only [submitJob, setKey_ne _ _ _ he] at hj
      have := hInv.jobs_bound jid job hj
      show jid ≤ s.count + 1
      omega
  · intro jid job lid hj hl
    by_cases he : jid = s.count + 1
    · subst he
      simp only [submitJob, setKey_same] at hj
      cases hj
      cases hl
    · simp only [submitJob, setKey_ne _ _ _ he] at hj
      exact hInv.lockRef_live jid job lid hj hl
  · intro jid hd
    obtain ⟨job, lid, hj, hl⟩ := hInv.dispatched_lock jid hd
    have he : jid ≠ s.count + 1 := by
      intro hcon
      rw [hcon, hfresh] at hj
      cases hj
    exact ⟨job, lid, by simp only [submitJob, setKey_ne _ _ _ he]; exact hj, hl⟩
  · intro jid lid hH
    exact hInv.holder_props jid lid (hHold jid lid hH)
  · intro jid1 jid2 lid h1 h2
    exact hInv.holder_uniq jid1 jid2 lid (hHold _ _ h1) (hHold _ _ h2)
  · intro jid hrel
    obtain ⟨job, hj, hterm⟩ := hInv.released_terminal jid hrel
    have he : jid ≠ s.count + 1 := by
      intro hcon
      rw [hcon, hfresh] at hj
      cases hj
    exact ⟨job, by simp only [submitJob, setKey_ne _ _ _ he]; exact hj, hterm⟩
  · intro jid job hj hrun
    by_cases he : jid = s.count + 1
    · subst he
      simp only [submitJob, setKey_same] at hj
      cases hj
      cases hrun
    · simp only [submitJob, setKey_ne _ _ _ he] at hj
      exact hInv.running_lock jid job hj hrun
  · intro jid hq
    simp only [submitJob, List.mem_append, List.mem_singleton] at hq
    rcases hq with hq | hq
    · obtain ⟨job, hj, hw, hl, hnd⟩ := hInv.queue_facts jid hq
      have he : jid ≠ s.count + 1 := by
        intro hcon
        rw [hcon, hfresh] at hj
        cases hj
      exact ⟨job, by simp only [submitJob, setKey_ne _ _ _ he]; exact hj, hw, hl, hnd⟩
    · subst hq
      refine ⟨{ Job.new lockName now with id := some (s.count + 1) },
        by simp only [submitJob, setKey_same], rfl, rfl, ?_⟩
      intro hd
      obtain ⟨job, lid, hj, hl⟩ := hInv.dispatched_lock _ hd
      rw [hfresh] at hj
      cases hj
  · show (s.queue ++ [s.count + 1]).Nodup
    rw [List.nodup_append]
    refine ⟨hInv.queue_nodup, List.nodup_singleton _, ?_⟩
    rw [List.disjoint_singleton]
    intro ha
    obtain ⟨job, hj, _⟩ := hInv.queue_facts _ ha
    rw [hfresh] at hj
    cases hj

/-- Preservation helper: replacing a dispatched, non-terminal job by a
version with the same lock fields keeps the invariant (this is what the
`set_state` calls inside `Job.run` do). -/
lemma Inv_update_job (s : Sys) (jid : Nat) (job job2 : Job)
    (hj : s.jobs jid = some job)
    (hd : jid ∈ s.dispatched)
    (hlk : job2.lock = job.lock) (hln : job2.lockName = job.lockName)
    (hnotterm : ¬(job.state = State.SUCCESS ∨ job.state = State.FAILED))
    (hInv : Inv s) :
    Inv { s with jobs := setKey s.jobs jid (some job2) } := by
  have hnq : jid ∉ s.queue := by
    intro hq
    obtain ⟨jobx, hjx, _, _, hnd⟩ := hInv.queue_facts jid hq
    exact hnd hd
  have hHold : ∀ jid2 lid, Holder { s with jobs := setKey s.jobs jid (some job2) } jid2 lid
      ↔ Holder s jid2 lid := by
    intro jid2 lid
    constructor
    · intro ⟨jobx, hjx, hlx, hrelx⟩
      by_cases he : jid2 = jid
      · subst he
        simp only [setKey_same] at hjx
        cases hjx
        rw [hlk] at hlx
        exact ⟨job, hj, hlx, hrelx⟩
      · simp only [setKey_ne _ _ _ he] at hjx
        exact ⟨jobx, hjx, hlx, hrelx⟩
    · intro ⟨jobx, hjx, hlx, hrelx⟩
      by_cases he : jid2 = jid
      · subst he
        rw [hj] at hjx
        cases hjx
        exact ⟨job2, by simp only [setKey_same], by rw [hlk]; exact hlx, hrelx⟩
      · exact ⟨jobx, by simp only [setKey_ne _ _ _ he]; exact hjx, hlx, hrelx⟩
  refine ⟨?_, hInv.reg_live, hInv.locks_lt, ?_, ?_, ?_, ?_, ?_, ?_, ?_, hInv.queue_nodup⟩
  · intro jid2 jobx hjx
    by_cases he : jid2 = jid
    · subst he
      exact hInv.jobs_bound jid2 job hj
    · simp only [setKey_ne _ _ _ he] at hjx
      exact hInv.jobs_bound jid2 jobx hjx
  · intro jid2 jobx lid hjx hlx
    by_cases he : jid2 = jid
    · subst he
      simp only [setKey_same] at hjx
      cases hjx
      rw [hlk] at hlx
      obtain ⟨L, hL, hname⟩ := hInv.lockRef_live jid2 job lid hj hlx
      exact ⟨L, hL, by rw [hln]; exact hname⟩
    · simp only [setKey_ne _ _ _ he] at hjx
      exact hInv.lockRef_live jid2 jobx lid hjx hlx
  · intro jid2 hd2
    obtain ⟨jobx, lid, hjx, hlx⟩ := hInv.dispatched_lock jid2 hd2
    by_cases he : jid2 = jid
    · subst he
      rw [hj] at hjx
      cases hjx
      exact ⟨job2, lid, by simp only [setKey_same], by rw [hlk]; exact hlx⟩
    · exact ⟨jobx, lid, by simp only [setKey_ne _ _ _ he]; exact hjx, hlx⟩
  · intro jid2 lid hH
    exact hInv.holder_props jid2 lid ((hHold jid2 lid).mp hH)
  · intro jid1 jid2 lid h1 h2
    exact hInv.holder_uniq jid1 jid2 lid ((hHold _ _).mp h1) ((hHold _ _).mp h2)
  · intro jid2 hrel
    obtain ⟨jobx, hjx, hterm⟩ := hInv.released_terminal jid2 hrel
    by_cases he : jid2 = jid
    · subst he
      rw [hj] at hjx
      cases hjx
      exact absurd hterm hnotterm
    · exact ⟨jobx, by simp only [setKey_ne _ _ _ he]; exact hjx, hterm⟩
  · intro jid2 jobx hjx hrun
    by_cases he : jid2 = jid
    · subst he
      simp only [setKey_same] at hjx
      cases hjx
      obtain ⟨joby, lid, hjy, hly⟩ := hInv.dispatched_lock jid2 hd
      rw [hj] at hjy
      cases hjy
      exact ⟨lid, by rw [hlk]; exact hly⟩
    · simp only [setKey_ne _ _ _ he] at hjx
      exact hInv.running_lock jid2 jobx hjx hrun
  · intro jid2 hq
    obtain ⟨jobx, hjx, hw, hl, hnd⟩ := hInv.queue_facts jid2 hq
    have he : jid2 ≠ jid := by
      intro hcon
      subst hcon
      exact hnq hq
    exact ⟨jobx, by simp only [setKey_ne _ _ _ he]; exact hjx, hw, hl, hnd⟩

/-- Preservation of the invariant by the `set_state('RUNNING')` step of a
spawned `Job.run`. -/
lemma Inv_startRun (s : Sys) (jid now : Nat) (hd : jid ∈ s.dispatched) (hInv : Inv s) :
    Inv (startRun s jid now) := by
  cases hj : s.jobs jid with
  | none =>
    simp only [startRun, hj]
    exact hInv
  | some job =>
    cases hs : job.set_state "RUNNING" now with
    | none =>
      simp only [startRun, hj, hs]
      exact hInv
    | some job2 =>
      simp only [startRun, hj, hs]
      obtain ⟨_, hln, hlk, _, _, hnotterm⟩ := set_state_inv hs
      exact Inv_update_job s jid job job2 hj hd hlk hln hnotterm hInv

/-- Preservation of the invariant by the completion step of a spawned
`Job.run` (`set_result` on success, then the terminal `set_state`). -/
lemma Inv_finishRun (s : Sys) (jid : Nat) (ok : Bool) (v : Option Value) (now : Nat)
    (hd : jid ∈ s.dispatched) (hInv : Inv s) :
    Inv (finishRun s jid ok v now) := by
  cases hj : s.jobs jid with
  | none =>
    simp only [finishRun, hj]
    exact hInv
  | some job =>
    cases hs : (if ok then job.set_result v else job).set_state
        (if ok then "SUCCESS" else "FAILED") now with
    | none =>
      simp only [finishRun, hj, hs]
      exact hInv
    | some job2 =>
      simp only [finishRun, hj, hs]
      obtain ⟨_, hln, hlk, _, _, hnotterm⟩ := set_state_inv hs
      have hA : (if ok then job.set_result v else job).lock = job.lock := by
        cases ok <;> rfl
      have hB : (if ok then job.set_result v else job).lockName = job.lockName := by
        cases ok <;> rfl
      have hC : (if ok then job.set_result v else job).state = job.state := by
        cases ok <;> rfl
      refine Inv_update_job s jid job job2 hj hd ?_ ?_ ?_ hInv
      · rw [hlk, hA]
      · rw [hln, hB]
      · rw [hC] at hnotterm
        exact hnotterm

/-- Preservation helper for `release_lock` on a job with no lock: only
the released list (and the event flag) change. -/
lemma Inv_release_nolock (s : Sys) (jid : Nat) (job : Job)
    (hj : s.jobs jid = some job)
    (hterm : job.state = State.SUCCESS ∨ job.state = State.FAILED)
    (ev : Bool) (hInv : Inv s) :
    Inv { s with queue_event := ev, released := s.released ++ [jid] } := by
  have htrans : ∀ jid2 lid2,
      Holder { s with queue_event := ev, released := s.released ++ [jid] } jid2 lid2 →
        Holder s jid2 lid2 := by
    intro jid2 lid2 ⟨jobx, hjx, hlx, hrelx⟩
    simp only [List.mem_append, List.mem_singleton] at hrelx
    push_neg at hrelx
    exact ⟨jobx, hjx, hlx, hrelx.1⟩
  refine ⟨hInv.jobs_bound, hInv.reg_live, hInv.locks_lt, hInv.lockRef_live,
    hInv.dispatched_lock, ?_, ?_, ?_, hInv.running_lock, hInv.queue_facts, hInv.queue_nodup⟩
  · intro jid2 lid2 hH
    exact hInv.holder_props jid2 lid2 (htrans _ _ hH)
  · intro jid1 jid2 lid2 hA hB
    exact hInv.holder_uniq jid1 jid2 lid2 (htrans _ _ hA) (htrans _ _ hB)
  · intro jid2 hrel
    simp only [List.mem_append, List.mem_singleton] at hrel
    rcases hrel with hrel | hrel
    · exact hInv.released_terminal jid2 hrel
    · subst hrel
      exact ⟨job, hj, hterm⟩

/-- Preservation core for `release_lock` on a job holding lock `lid`:
the lock loses one reference to the job and its semaphore, and the
registry either keeps its entries or drops the entry of the released
name. -/
lemma Inv_release_core (s : Sys) (jid lid : Nat) (job : Job) (L : JobSharedLock)
    (hj : s.jobs jid = some job) (hl : job.lock = some lid)
    (hL : s.lockSt.locks lid = some L)
    (hterm : job.state = State.SUCCESS ∨ job.state = State.FAILED)
    (h3 : jid ∉ s.released)
    (reg2 : String → Option Nat)
    (hregA : ∀ n, n ≠ L.name → reg2 n = s.lockSt.registry n)
    (hregB : reg2 L.name = none ∨ reg2 L.name = s.lockSt.registry L.name)
    (ev : Bool) (hInv : Inv s) :
    Inv { s with
      lockSt := { locks := setKey s.lockSt.locks lid
                    (some { name := L.name, jobs := L.jobs.erase jid, semaphore := false }),
                  registry := reg2, nextLock := s.lockSt.nextLock },
      queue_event := ev,
      released := s.released ++ [jid] } := by
  have hHolder_jid : Holder s jid lid := ⟨job, hj, hl, h3⟩
  have huniq : ∀ jid2, Holder s jid2 lid → jid2 = jid := fun jid2 hH =>
    hInv.holder_uniq jid2 jid lid hH hHolder_jid
  obtain ⟨LJ, hLJ, hsemJ, hmemJ, hregJ⟩ := hInv.holder_props jid lid hHolder_jid
  rw [hL] at hLJ
  cases hLJ
  have htrans : ∀ jid2 lid2,
      Holder { s with
        lockSt := { locks := setKey s.lockSt.locks lid
                      (some { name := L.name, jobs := L.jobs.erase jid, semaphore := false }),
                    registry := reg2, nextLock := s.lockSt.nextLock },
        queue_event := ev,
        released := s.released ++ [jid] } jid2 lid2 →
      jid2 ≠ jid ∧ Holder s jid2 lid2 := by
    intro jid2 lid2 ⟨jobx, hjx, hlx, hrelx⟩
    simp only [List.mem_append, List.mem_singleton] at hrelx
    push_neg at hrelx
    exact ⟨hrelx.2, jobx, hjx, hlx, hrelx.1⟩
  refine ⟨hInv.jobs_bound, ?_, ?_, ?_, hInv.dispatched_lock, ?_, ?_, ?_,
    hInv.running_lock, hInv.queue_facts, hInv.queue_nodup⟩
  · intro n lid2 hn
    change reg2 n = some lid2 at hn
    by_cases hnn : n = L.name
    · subst hnn
      rcases hregB with hB | hB
      · rw [hB] at hn
        cases hn
      · rw [hB, hregJ] at hn
        cases hn
        exact ⟨{ name := L.name, jobs := L.jobs.erase jid, semaphore := false }, by simp, rfl⟩
    · rw [hregA n hnn] at hn
      obtain ⟨L1, hL1, hname1⟩ := hInv.reg_live n lid2 hn
      have hne : lid2 ≠ lid := by
        intro hcon
        subst hcon
        rw [hL] at hL1
        cases hL1
        exact hnn hname1.symm
      exact ⟨L1, by simp only [setKey_ne _ _ _ hne]; exact hL1, hname1⟩
  · intro lid2 L1 h1
    by_cases he : lid2 = lid
    · subst he
      exact hInv.locks_lt lid2 L hL
    · simp only [setKey_ne _ _ _ he] at h1
      exact hInv.locks_lt lid2 L1 h1
  · intro jid2 jobx lidx hjx hlx
    obtain ⟨Lx, hLx, hnx⟩ := hInv.lockRef_live jid2 jobx lidx hjx hlx
    by_cases he : lidx = lid
    · subst he
      rw [hL] at hLx
      cases hLx
      exact ⟨{ name := L.name, jobs := L.jobs.erase jid, semaphore := false }, by simp, hnx⟩
    · exact ⟨Lx, by simp only [setKey_ne _ _ _ he]; exact hLx, hnx⟩
  · intro jid2 lid2 hH
    obtain ⟨hne, hHs⟩ := htrans _ _ hH
    obtain ⟨Lx, hLx, hsx, hmx, hrx⟩ := hInv.holder_props _ _ hHs
    have hlidne : lid2 ≠ lid := by
      intro hcon
      subst hcon
      exact hne (huniq jid2 hHs)
    refine ⟨Lx, ?_, hsx, hmx, ?_⟩
    · simp only [setKey_ne _ _ _ hlidne]
      exact hLx
    · have hnn : Lx.name ≠ L.name := by
        intro hcon
        rw [hcon, hregJ] at hrx
        cases hrx
        exact hlidne rfl
      show reg2 Lx.name = some lid2
      rw [hregA _ hnn]
      exact hrx
  · intro jid1 jid2 lid2 hA hB
    exact hInv.holder_uniq jid1 jid2 lid2 (htrans _ _ hA).2 (htrans _ _ hB).2
  · intro jid2 hrel
    simp only [List.mem_append, List.mem_singleton] at hrel
    rcases hrel with hrel | hrel
    · exact hInv.released_terminal jid2 hrel
    · subst hrel
      exact ⟨job, hj, hterm⟩

/-- Preservation of the invariant by the `release_lock` step at the end
of `Job.run`. -/
lemma Inv_releaseRun (s : Sys) (jid : Nat)
    (h2 : stateOf s jid = some State.SUCCESS ∨ stateOf s jid = some State.FAILED)
    (h3 : jid ∉ s.released) (hInv : Inv s) :
    Inv (releaseRun s jid) := by
  cases hj : s.jobs jid with
  | none =>
    simp only [releaseRun, hj]
    exact hInv
  | some job =>
    have hterm : job.state = State.SUCCESS ∨ job.state = State.FAILED := by
      rcases h2 with h | h
      · left
        simp only [stateOf, hj, Option.map_some', Option.some.injEq] at h
        exact h
      · right
        simp only [stateOf, hj, Option.map_some', Option.some.injEq] at h
        exact h
    cases hl : job.lock with
    | none =>
      have hs2 : releaseRun s jid = { s with
          queue_event := s.queue_event,
          released := s.released ++ [jid] } := by
        simp [releaseRun, hj, hl, releaseLockOp]
      rw [hs2]
      exact Inv_release_nolock s jid job hj hterm s.queue_event hInv
    | some lid =>
      obtain ⟨L, hL, hname⟩ := hInv.lockRef_live jid job lid hj hl
      by_cases hE : L.jobs.erase jid = []
      · have hs2 : releaseRun s jid = { s with
          lockSt := { locks := setKey s.lockSt.locks lid
                        (some { name := L.name, jobs := L.jobs.erase jid, semaphore := false }),
                      registry := setKey s.lockSt.registry L.name none,
                      nextLock := s.lockSt.nextLock },
          queue_event := true, released := s.released ++ [jid] } := by
          simp [releaseRun, hj, hl, releaseLockOp, hL, hE]
        rw [hs2]
        refine Inv_release_core s jid lid job L hj hl hL hterm h3
          (setKey s.lockSt.registry L.name none) ?_ ?_ true hInv
        · intro n hnn
          exact setKey_ne _ _ _ hnn
        · left
          exact setKey_same _ _ _
      · have hs2 : releaseRun s jid = { s with
          lockSt := { locks := setKey s.lockSt.locks lid
                        (some { name := L.name, jobs := L.jobs.erase jid, semaphore := false }),
                      registry := s.lockSt.registry,
                      nextLock := s.lockSt.nextLock },
          queue_event := true, released := s.released ++ [jid] } := by
          simp [releaseRun, hj, hl, releaseLockOp, hL, hE]
        rw [hs2]
        refine Inv_release_core s jid lid job L hj hl hL hterm h3
          s.lockSt.registry (fun n _ => rfl) (Or.inr rfl) true hInv

/-- Preservation helper for a scan pass that selects nothing: the job
heap, queue and bookkeeping are untouched and the lock state underwent
only `get_lock` effects. -/
lemma Inv_lsStep_only (s : Sys) (ls2 : LockSt) (hreg2 : RegLive ls2) (hlt2 : LocksLt ls2)
    (hstep : LsStep s.lockSt ls2) (ev cr : Bool) (hInv : Inv s) :
    Inv { s with lockSt := ls2, queue_event := ev, crashed := cr } := by
  have htrans : ∀ jid lid,
      Holder { s with lockSt := ls2, queue_event := ev, crashed := cr } jid lid →
        Holder s jid lid := by
    intro jid lid ⟨job, hj, hl, hr⟩
    exact ⟨job, hj, hl, hr⟩
  refine ⟨hInv.jobs_bound, hreg2, hlt2, ?_, hInv.dispatched_lock, ?_, ?_,
    hInv.released_terminal, hInv.running_lock, hInv.queue_facts, hInv.queue_nodup⟩
  · intro jid job lid hj hl
    obtain ⟨L, hL, hn⟩ := hInv.lockRef_live jid job lid hj hl
    obtain ⟨L2, hL2, hn2, _, _⟩ := hstep.old lid L hL
    refine ⟨L2, hL2, ?_⟩
    rw [hn2]
    exact hn
  · intro jid lid hH
    obtain ⟨L, hL, hsem, hmem, hreg⟩ := hInv.holder_props jid lid (htrans _ _ hH)
    obtain ⟨L2, hL2, hn2, hs2, hm2⟩ := hstep.old lid L hL
    refine ⟨L2, hL2, ?_, hm2 _ hmem, ?_⟩
    · rw [hs2]
      exact hsem
    · rw [hn2]
      exact hstep.reg_mono _ _ hreg
  · intro jid1 jid2 lid hA hB
    exact hInv.holder_uniq jid1 jid2 lid (htrans _ _ hA) (htrans _ _ hB)

/-- Preservation of the invariant by one iteration of the scheduler loop
(`JobsQueue.next` plus the dispatch in `JobsQueue.run`). -/
lemma Inv_scheduleStep (s : Sys) (hInv : Inv s) : Inv (scheduleStep s) := by
  obtain ⟨res, jobs2, ls2, hres⟩ :
      ∃ res jobs2 ls2, scanQueue s.queue s.jobs s.lockSt = (res, jobs2, ls2) := ⟨_, _, _, rfl⟩
  obtain ⟨hreg2, hlt2, hnc, hfound⟩ :=
    scanQueue_spec s.queue s.jobs s.lockSt hInv.reg_live hInv.locks_lt res jobs2 ls2 hres
  cases res with
  | nofound =>
    obtain ⟨hjeq, hstep⟩ := hnc (Or.inl rfl)
    subst hjeq
    have hs2 : scheduleStep s = { s with lockSt := ls2, queue_event := false } := by
      simp [scheduleStep, hres]
    rw [hs2]
    exact Inv_lsStep_only s ls2 hreg2 hlt2 hstep false s.crashed hInv
  | crash =>
    obtain ⟨hjeq, hstep⟩ := hnc (Or.inr rfl)
    subst hjeq
    have hs2 : scheduleStep s = { s with lockSt := ls2, crashed := true } := by
      simp [scheduleStep, hres]
    rw [hs2]
    exact Inv_lsStep_only s ls2 hreg2 hlt2 hstep s.queue_event true hInv
  | found jid =>
    obtain ⟨job, lid, lsMid, L, hjob, hjq, hjobs2, hstepMid, hLmid, hsemL, hmemL,
      hregMid, hnameL, holdSem, hls2⟩ := hfound jid rfl
    subst hjobs2
    subst hls2
    have hs2 : scheduleStep s = { s with
        jobs := setKey s.jobs jid (some { job with lock := some lid }),
        lockSt := { lsMid with locks := setKey lsMid.locks lid (some { L with semaphore := true }) },
        queue := s.queue.erase jid,
        queue_event := if s.queue.erase jid = [] then false else s.queue_event,
        dispatched := s.dispatched ++ [jid] } := by
      simp [scheduleStep, hres]
    rw [hs2]
    obtain ⟨jobq, hjobq, hwait, hlockn, hnodisp⟩ := hInv.queue_facts jid hjq
    rw [hjob] at hjobq
    cases hjobq
    have hnrel : jid ∉ s.released := by
      intro hmem
      obtain ⟨jobr, hjr, hterm⟩ := hInv.released_terminal jid hmem
      rw [hjob] at hjr
      cases hjr
      rcases hterm with h | h <;> rw [hwait] at h <;> cases h
    have hnoPre : ∀ jid2, ¬ Holder s jid2 lid := by
      intro jid2 hH
      obtain ⟨L0, hL0, hsem0, _, _⟩ := hInv.holder_props jid2 lid hH
      have := holdSem L0 hL0
      rw [hsem0] at this
      cases this
    have htransL : ∀ lid2 L0, lid2 ≠ lid → s.lockSt.locks lid2 = some L0 →
        ∃ L2, setKey lsMid.locks lid (some { L with semaphore := true }) lid2 = some L2
          ∧ L2.name = L0.name ∧ L2.semaphore = L0.semaphore ∧ ∀ x, x ∈ L0.jobs → x ∈ L2.jobs := by
      intro lid2 L0 hne h0
      obtain ⟨L2, hL2, hn2, hs2x, hm2⟩ := hstepMid.old lid2 L0 h0
      exact ⟨L2, by simp only [setKey_ne _ _ _ hne]; exact hL2, hn2, hs2x, hm2⟩
    have htransN : ∀ lid2 L0, s.lockSt.locks lid2 = some L0 →
        ∃ L2, setKey lsMid.locks lid (some { L with semaphore := true }) lid2 = some L2
          ∧ L2.name = L0.name := by
      intro lid2 L0 h0
      by_cases hne : lid2 = lid
      · subst hne
        obtain ⟨Lm, hLm, hnm, _, _⟩ := hstepMid.old lid2 L0 h0
        rw [hLmid] at hLm
        cases hLm
        exact ⟨{ L with semaphore := true }, by simp, hnm⟩
      · obtain ⟨L2, hL2, hn2, _, _⟩ := hstepMid.old lid2 L0 h0
        exact ⟨L2, by simp only [setKey_ne _ _ _ hne]; exact hL2, hn2⟩
    have hHold : ∀ jid2 lid2, jid2 ≠ jid →
        (Holder { s with
          jobs := setKey s.jobs jid (some { job with lock := some lid }),
          lockSt := { lsMid with locks := setKey lsMid.locks lid (some { L with semaphore := true }) },
          queue := s.queue.erase jid,
          queue_event := if s.queue.erase jid = [] then false else s.queue_event,
          dispatched := s.dispatched ++ [jid] } jid2 lid2 ↔ Holder s jid2 lid2) := by
      intro jid2 lid2 hne
      constructor
      · intro ⟨jobx, hjx, hlx, hrx⟩
        simp only [setKey_ne _ _ _ hne] at hjx
        exact ⟨jobx, hjx, hlx, hrx⟩
      · intro ⟨jobx, hjx, hlx, hrx⟩
        exact ⟨jobx, by simp only [setKey_ne _ _ _ hne]; exact hjx, hlx, hrx⟩
    have hHnew : ∀ lid2, Holder { s with
          jobs := setKey s.jobs jid (some { job with lock := some lid }),
          lockSt := { lsMid with locks := setKey lsMid.locks lid (some { L with semaphore := true }) },
          queue := s.queue.erase jid,
          queue_event := if s.queue.erase jid = [] then false else s.queue_event,
          dispatched := s.dispatched ++ [jid] } jid lid2 → lid2 = lid := by
      intro lid2 ⟨jobx, hjx, hlx, hrx⟩
      simp only [setKey_same] at hjx
      cases hjx
      cases hlx
      rfl
    refine ⟨?_, hreg2, hlt2, ?_, ?_, ?_, ?_, ?_, ?_, ?_, ?_⟩
    · intro jid2 jobx hjx
      by_cases he : jid2 = jid
      · subst he
        exact hInv.jobs_bound jid2 job hjob
      · simp only [setKey_ne _ _ _ he] at hjx
        exact hInv.jobs_bound jid2 jobx hjx
    · intro jid2 jobx lidx hjx hlx
      by_cases he : jid2 = jid
      · subst he
        simp only [setKey_same] at hjx
        cases hjx
        cases hlx
        refine ⟨{ L with semaphore := true }, by simp, ?_⟩
        show job.lockName = some L.name
        exact hnameL
      · simp only [setKey_ne _ _ _ he] at hjx
        obtain ⟨L0, hL0, hn0⟩ := hInv.lockRef_live jid2 jobx lidx hjx hlx
        obtain ⟨L2, hL2, hn2⟩ := htransN lidx L0 hL0
        refine ⟨L2, hL2, ?_⟩
        rw [hn2]
        exact hn0
    · intro jid2 hd2
      simp only [List.mem_append, List.mem_singleton] at hd2
      rcases hd2 with hd2 | hd2
      · have he : jid2 ≠ jid := by
          intro hcon
          subst hcon
          exact hnodisp hd2
        obtain ⟨jobx, lidx, hjx, hlx⟩ := hInv.dispatched_lock jid2 hd2
        exact ⟨jobx, lidx, by simp only [setKey_ne _ _ _ he]; exact hjx, hlx⟩
      · subst hd2
        exact ⟨{ job with lock := some lid }, lid, by simp only [setKey_same], rfl⟩
    · intro jid2 lid2 hH
      by_cases he : jid2 = jid
      · subst he
        have hlid2 : lid2 = lid := hHnew lid2 hH
        subst hlid2
        refine ⟨{ L with semaphore := true }, by simp, rfl, hmemL, ?_⟩
        show lsMid.registry L.name = some lid2
        exact hregMid
      · have hHs := (hHold jid2 lid2 he).mp hH
        obtain ⟨L0, hL0, hsem0, hmem0, hreg0⟩ := hInv.holder_props jid2 lid2 hHs
        have hlne : lid2 ≠ lid := by
          intro hcon
          subst hcon
          exact hnoPre jid2 hHs
        obtain ⟨L2, hL2, hn2, hs2x, hm2⟩ := htransL lid2 L0 hlne hL0
        refine ⟨L2, hL2, ?_, hm2 _ hmem0, ?_⟩
        · rw [hs2x]
          exact hsem0
        · show lsMid.registry L2.name = some lid2
          rw [hn2]
          exact hstepMid.reg_mono _ _ hreg0
    · intro jida jidb lid2 hA hB
      by_cases ha : jida = jid <;> by_cases hb : jidb = jid
      · rw [ha, hb]
      · subst ha
        have hlid2 : lid2 = lid := hHnew lid2 hA
        subst hlid2
        exact absurd ((hHold jidb lid2 hb).mp hB) (hnoPre jidb)
      · subst hb
        have hlid2 : lid2 = lid := hHnew lid2 hB
        subst hlid2
        exact absurd ((hHold jida lid2 ha).mp hA) (hnoPre jida)
      · exact hInv.holder_uniq jida jidb lid2 ((hHold _ _ ha).mp hA) ((hHold _ _ hb).mp hB)
    · intro jid2 hrel
      obtain ⟨jobr, hjr, hterm⟩ := hInv.released_terminal jid2 hrel
      have he : jid2 ≠ jid := by
        intro hcon
        subst hcon
        exact hnrel hrel
      exact ⟨jobr, by simp only [setKey_ne _ _ _ he]; exact hjr, hterm⟩
    · intro jid2 jobx hjx hrun
      by_cases he : jid2 = jid
      · subst he
        simp only [setKey_same] at hjx
        cases hjx
        rw [show ({ job with lock := some lid } : Job).state = job.state from rfl, hwait] at hrun
        cases hrun
      · simp only [setKey_ne _ _ _ he] at hjx
        exact hInv.running_lock jid2 jobx hjx hrun
    · intro jid2 hq2
      obtain ⟨hne, hq⟩ := (hInv.queue_nodup.mem_erase_iff).mp hq2
      obtain ⟨jobx, hjx, hw, hl, hnd⟩ := hInv.queue_facts jid2 hq
      refine ⟨jobx, by simp only [setKey_ne _ _ _ hne]; exact hjx, hw, hl, ?_⟩
      simp only [List.mem_append, List.mem_singleton]
      push_neg
      exact ⟨hnd, hne⟩
    · exact hInv.queue_nodup.erase jid

/-- Every reachable state satisfies the inductive invariant. -/
lemma Reachable_Inv : ∀ s : Sys, Reachable s → Inv s := by
  intro s h
  induction h with
  | init => exact Inv_init
  | step hr hs ih =>
    cases hs with
    | submit lockName now => exact Inv_submit _ lockName now ih
    | schedule h1 hcr => exact Inv_scheduleStep _ ih
    | start jid now h1 h2 => exact Inv_startRun _ jid now h1 ih
    | finish jid ok v now h1 h2 => exact Inv_finishRun _ jid ok v now h1 ih
    | release jid h1 h2 h3 => exact Inv_releaseRun _ jid h2 h3 ih

/-- C2: in every reachable state of the interleaved execution of the
scheduler loop and the job greenlets, at most one job with a given
computed lock name is in `RUNNING` state: two running jobs whose
`get_lock_name()` results are the same name are the same job.  Jobs with
no lock name or different names are not constrained (nothing relates
them; unrelated jobs run concurrently, each with its own lock or no
lock). -/
theorem C2_shared_lock_mutual_exclusion (s : Sys) (hs : Reachable s)
    (i1 i2 : Nat) (j1 j2 : Job) (n : String)
    (h1 : s.jobs i1 = some j1) (h2 : s.jobs i2 = some j2)
    (hr1 : j1.state = State.RUNNING) (hr2 : j2.state = State.RUNNING)
    (hn1 : j1.lockName = some n) (hn2 : j2.lockName = some n) :
    i1 = i2 := by
  have hInv := Reachable_Inv s hs
  obtain ⟨lid1, hl1⟩ := hInv.running_lock i1 j1 h1 hr1
  obtain ⟨lid2, hl2⟩ := hInv.running_lock i2 j2 h2 hr2
  have hrel1 : i1 ∉ s.released := by
    intro hmem
    obtain ⟨jobx, hjx, hterm⟩ := hInv.released_terminal i1 hmem
    rw [h1] at hjx
    cases hjx
    rcases hterm with ht | ht <;> rw [hr1] at ht <;> cases ht
  have hrel2 : i2 ∉ s.released := by
    intro hmem
    obtain ⟨jobx, hjx, hterm⟩ := hInv.released_terminal i2 hmem
    rw [h2] at hjx
    cases hjx
    rcases hterm with ht | ht <;> rw [hr2] at ht <;> cases ht
  have hH1 : Holder s i1 lid1 := ⟨j1, h1, hl1, hrel1⟩
  have hH2 : Holder s i2 lid2 := ⟨j2, h2, hl2, hrel2⟩
  obtain ⟨LA, hLA, hsemA, hmemA, hregA⟩ := hInv.holder_props i1 lid1 hH1
  obtain ⟨LB, hLB, hsemB, hmemB, hregB⟩ := hInv.holder_props i2 lid2 hH2
  obtain ⟨LA2, hLA2, hnameA⟩ := hInv.lockRef_live i1 j1 lid1 h1 hl1
  obtain ⟨LB2, hLB2, hnameB⟩ := hInv.lockRef_live i2 j2 lid2 h2 hl2
  rw [hLA] at hLA2
  cases hLA2
  rw [hLB] at hLB2
  cases hLB2
  have hnA : LA.name = n := by
    rw [hn1] at hnameA
    exact (Option.some.inj hnameA).symm
  have hnB : LB.name = n := by
    rw [hn2] at hnameB
    exact (Option.some.inj hnameB).symm
  rw [hnA] at hregA
  rw [hnB] at hregB
  rw [hregA] at hregB
  cases hregB
  exact hInv.holder_uniq i1 i2 lid1 hH1 hH2

/-- Witness state for C2: one job with lock name `x`, dispatched and
running. -/
def C2wit : Sys := startRun (scheduleStep (submitJob initSys (some "x") 0)) 1 0

/-- The concrete job object running in `C2wit`. -/
def C2witJob : Job :=
  { id := some 1, lockName := some "x", lock := some 0, result := none,
    state := State.RUNNING, time_started := 0, time_finished := some 0 }

/-- C2 witness: the mutual-exclusion theorem applied to the reachable
state `C2wit` at the concrete running job. -/
theorem C2_shared_lock_mutual_exclusion_witness :
    Reachable C2wit ∧ C2wit.jobs 1 = some C2witJob
      ∧ C2witJob.state = State.RUNNING ∧ (1 : Nat) = 1 := by
  have hreach : Reachable C2wit :=
    Reachable.step (Reachable.step (Reachable.step Reachable.init
      (Step.submit initSys (some "x") 0))
      (Step.schedule (submitJob initSys (some "x") 0) rfl rfl))
      (Step.start (scheduleStep (submitJob initSys (some "x") 0)) 1 0 (by decide) rfl)
  exact ⟨hreach, rfl, rfl,
    C2_shared_lock_mutual_exclusion C2wit hreach 1 1 C2witJob C2witJob "x" rfl rfl rfl rfl rfl rfl⟩

end Middlewared
